import Mathlib

/-!
Shallow embedding of the core of `fx-invoice-tracker` (`src/utils/fxUtils.ts`):
the invoice normalization and FX-conversion pipeline.

Modelling conventions:
* JavaScript numbers are modelled as `ℚ`; a possibly-NaN number is `JNum := Option ℚ`
  with `none` playing the role of `NaN` (claims do not depend on float rounding,
  signed zero, or infinities; a zero raw API rate, which JS would turn into
  `Infinity`, is outside the numeric model).
* Raw spreadsheet cells (PapaParse with `header: true`, no dynamic typing) are
  `Option String`; `none` models a missing/`undefined` cell.
* JS truthiness on strings is `truthyS` (empty string and `undefined` are falsy);
  on numbers it is `jTruthy` (`0` and `NaN` are falsy).
* `new Date(s)` / date-fns `parseISO` are modelled by `parseDateMs` on ISO
  `YYYY-MM-DD` strings (milliseconds since the Unix epoch, midnight UTC);
  every other string is an Invalid Date (`none`).  The current instant
  (`new Date()` / `Date.now()`) is threaded as an explicit `today : Int` in ms.
* JS objects `Record<string, number>` are association lists with first-match
  lookup; the external `fetch` of `api.exchangerate.host` is threaded as an
  oracle `FXOracle`: `none` models any failure (network error, non-OK response,
  `!data.success`, missing `data.rates`), `some rs` a successfully parsed
  `data.rates` payload.
-/

namespace FxTracker

/- Batteries marks the `Rat` arithmetic primitives `@[irreducible]`, which
blocks kernel evaluation in `decide`; restore the default reducibility so
concrete rate computations evaluate. -/
attribute [local semireducible] Rat.mul Rat.add Rat.sub Rat.inv

/-- A JavaScript number that may be `NaN` (`none`). -/
abbrev JNum := Option ℚ

/-- A JavaScript integer-valued number that may be `NaN` (`none`). -/
abbrev JInt := Option Int

/-- Invoice lifecycle status, from the union type in `fxUtils.ts`. -/
inductive Status where
  | Outstanding
  | Paid
  | Overdue
  deriving DecidableEq, Repr

/-- JS truthiness of a possibly-missing string: `undefined` and `""` are falsy. -/
def truthyS : Option String → Bool
  | none => false
  | some s => s ≠ ""

/-- JS truthiness of a number: `0` and `NaN` are falsy. -/
def jTruthy : JNum → Bool
  | none => false
  | some q => q ≠ 0

/-- JS `x || 0` on a number: `NaN` (and `0`) collapse to `0`. -/
def jOrZero : JNum → ℚ
  | none => 0
  | some q => q

/-- JS `s || dflt` on a possibly-missing string. -/
def strOr (o : Option String) (dflt : String) : String :=
  match o with
  | none => dflt
  | some s => if s = "" then dflt else s

/-- Value of a decimal digit character. -/
def digitVal (c : Char) : Option Nat :=
  if c.isDigit then some (c.toNat - 48) else none

/-- Split a leading run of decimal digits off a character list. -/
def takeDigits : List Char → List Nat × List Char
  | [] => ([], [])
  | c :: cs =>
    match digitVal c with
    | some d =>
      let r := takeDigits cs
      (d :: r.1, r.2)
    | none => ([], c :: cs)

/-- Read a digit list (most significant first) as a natural number. -/
def natOfDigits (ds : List Nat) : Nat :=
  ds.foldl (fun a d => 10 * a + d) 0

/-- JS `parseFloat`: skip leading whitespace, optional sign, digits, optional
fraction; trailing garbage is ignored; no digits at all gives `NaN` (`none`).
(The exponent form `1e3` is not needed by any claim and is not modelled.) -/
def parseFloat (s : String) : JNum :=
  let cs := s.toList.dropWhile (fun c => c.isWhitespace)
  let signed : ℚ × List Char :=
    match cs with
    | '-' :: rest => (-1, rest)
    | '+' :: rest => (1, rest)
    | _ => (1, cs)
  let ip := takeDigits signed.2
  let fp : List Nat :=
    match ip.2 with
    | '.' :: rest => (takeDigits rest).1
    | _ => []
  if ip.1.isEmpty ∧ fp.isEmpty then none
  else
    some (signed.1 * ((natOfDigits ip.1 : ℚ) + (natOfDigits fp : ℚ) / (10 : ℚ) ^ fp.length))

/-- Gregorian leap year. -/
def isLeap (y : Nat) : Bool :=
  y % 4 == 0 && (y % 100 != 0 || y % 400 == 0)

/-- Number of days in month `m` (1-based) of a (non-)leap year. -/
def monthDays (leap : Bool) (m : Nat) : Nat :=
  match m with
  | 1 => 31
  | 2 => if leap then 29 else 28
  | 3 => 31
  | 4 => 30
  | 5 => 31
  | 6 => 30
  | 7 => 31
  | 8 => 31
  | 9 => 30
  | 10 => 31
  | 11 => 30
  | 12 => 31
  | _ => 0

/-- Days in the year strictly before month `m` (1-based). -/
def daysBeforeMonth (leap : Bool) (m : Nat) : Nat :=
  let l := if leap then 1 else 0
  match m with
  | 1 => 0
  | 2 => 31
  | 3 => 59 + l
  | 4 => 90 + l
  | 5 => 120 + l
  | 6 => 151 + l
  | 7 => 181 + l
  | 8 => 212 + l
  | 9 => 243 + l
  | 10 => 273 + l
  | 11 => 304 + l
  | 12 => 334 + l
  | _ => 0

/-- Leap years in `1..y`. -/
def leapsUpTo (y : Nat) : Nat :=
  y / 4 - y / 100 + y / 400

/-- Days from 0001-01-01 to January 1st of year `y` (`y ≥ 1`). -/
def daysBeforeYear (y : Nat) : Nat :=
  365 * (y - 1) + leapsUpTo (y - 1)

/-- Days since the Unix epoch (1970-01-01) of the civil date `y-m-d`. -/
def epochDay (y m d : Nat) : Int :=
  (daysBeforeYear y + daysBeforeMonth (isLeap y) m + (d - 1) : Int) - 719162

/-- Models `new Date(s).getTime()` / date-fns `parseISO` on an ISO `YYYY-MM-DD`
string: milliseconds since the Unix epoch at midnight UTC; any string not of
that shape (or with an out-of-range month/day, or year 0000) is an Invalid
Date, modelled as `none`. -/
def parseDateMs (s : String) : Option Int :=
  match s.toList with
  | [y1, y2, y3, y4, '-', m1, m2, '-', d1, d2] => do
    let a ← digitVal y1
    let b ← digitVal y2
    let c ← digitVal y3
    let e ← digitVal y4
    let f ← digitVal m1
    let g ← digitVal m2
    let h ← digitVal d1
    let i ← digitVal d2
    let y := 1000 * a + 100 * b + 10 * c + e
    let mo := 10 * f + g
    let da := 10 * h + i
    if 1 ≤ y ∧ 1 ≤ mo ∧ mo ≤ 12 ∧ 1 ≤ da ∧ da ≤ monthDays (isLeap y) mo then
      pure (epochDay y mo da * 86400000)
    else none
  | _ => none

/-- Models `Math.ceil (a / b)` for integer `a` and positive integer `b`. -/
def ceilDiv (a b : Int) : Int :=
  -((-a).fdiv b)

/-! ### Data model (`fxUtils.ts` interfaces) -/

/-- One raw spreadsheet row as handed to `processInvoiceData` (PapaParse with
`header: true`: every present cell is a string, absent cells are `undefined`). -/
structure RawRow where
  Client : Option String := none
  Invoice_Amount : Option String := none
  Currency : Option String := none
  Invoice_Date : Option String := none
  Due_Date : Option String := none
  Payment_Date : Option String := none
  Payment_Amount : Option String := none
  deriving DecidableEq, Repr

/-- The `InvoiceData` interface of `fxUtils.ts`.  Optional TS fields are
`Option`s; `Payment_Amount` can be a present `NaN` (hence `Option JNum`), and
`days_outstanding` can be a present `NaN` (hence `Option JInt`). -/
structure InvoiceData where
  Client : String
  Invoice_Amount : ℚ
  Currency : String
  Invoice_Date : String
  Due_Date : String
  Payment_Date : Option String := none
  Payment_Amount : Option JNum := none
  usd_amount_at_invoice : Option ℚ := none
  usd_amount_at_payment : Option ℚ := none
  fx_gain_loss : Option ℚ := none
  status : Option Status := none
  days_outstanding : Option JInt := none
  deriving DecidableEq, Repr

/-- A `Record<string, number>` of FX rates: association list, first match wins. -/
abbrev RatesMap := List (String × ℚ)

/-- The module-level `fxRateCache : Map<string, Record<string, number>>`. -/
abbrev Cache := List (String × RatesMap)

/-- The external rate source (`fetch` of `api.exchangerate.host`), as an oracle
from the requested date string and currency list to either a parsed
`data.rates` payload (`some`) or any failure — network error, non-OK response,
`success: false`, absent `rates` field — (`none`). -/
abbrev FXOracle := String → List String → Option RatesMap

/-- Models `m[c] || 1`: rate lookup with JS truthiness fallback (an absent key — and
also a stored `0` — yields `1`). -/
def rateOr1 (m : RatesMap) (c : String) : ℚ :=
  match List.lookup c m with
  | some r => if r = 0 then 1 else r
  | none => 1

/-! ### Rate fetching and the cache (`fetchFXRates`) -/

/-- Models `[...new Set(l)]`: de-duplicate keeping first occurrences in order. -/
def dedupFirst : List String → List String
  | [] => []
  | x :: xs => x :: (dedupFirst xs).filter (fun y => y ≠ x)

/-- Models `l.filter(Boolean)` over possibly-missing strings. -/
def truthyVals (l : List (Option String)) : List String :=
  l.filterMap fun o =>
    match o with
    | some s => if s = "" then none else some s
    | none => none

/-- Lexicographic comparison of character lists (JS string `<=` on code
units, for the basic plane). -/
def leChars : List Char → List Char → Bool
  | [], _ => true
  | _ :: _, [] => false
  | a :: as, b :: bs => if a < b then true else if b < a then false else leChars as bs

/-- JS default-comparator string order. -/
def leString (a b : String) : Bool :=
  leChars a.toList b.toList

/-- Insert into a sorted list of strings. -/
def insertSorted (x : String) : List String → List String
  | [] => [x]
  | y :: ys => if leString x y then x :: y :: ys else y :: insertSorted x ys

/-- Models `Array.prototype.sort()` with the default (string) comparator. -/
def sortStrings : List String → List String
  | [] => []
  | x :: xs => insertSorted x (sortStrings xs)

/-- The cache key `` `${date}-${currencies.sort().join(',')}` ``. -/
def cacheKey (date : String) (currencies : List String) : String :=
  date ++ "-" ++ String.intercalate "," (sortStrings currencies)

/-- The fallback rate table built in the `catch` branch: `{USD: 1}` plus every
requested non-USD currency at the neutral rate `1`. -/
def fallbackRates (currencies : List String) : RatesMap :=
  ("USD", 1) :: (currencies.filter (fun c => c ≠ "USD")).map (fun c => (c, 1))

/-- The success-path table: every API rate inverted to a USD-equivalent rate
(`usdRates[currency] = 1 / rate`), with `usdRates['USD'] = 1` overriding any
USD entry (modelled by putting `USD` first in a first-match-wins list). -/
def invertRates (rs : RatesMap) : RatesMap :=
  ("USD", 1) :: rs.map (fun p => (p.1, 1 / p.2))

/-- Result of one `fetchFXRates` call: the returned table, the cache after the
call, and how many external lookups were issued (0 or 1). -/
structure FetchResult where
  rates : RatesMap
  cache : Cache
  lookups : Nat
  deriving DecidableEq, Repr

/-- Models `fetchFXRates(date, currencies)`.  Cache hit returns the cached table with
no external call.  On a miss, `format(parseISO(date), 'yyyy-MM-dd')` throws for
an unparseable date before any network I/O, landing in the `catch` fallback;
otherwise one external lookup is issued and either the inverted table is cached
and returned, or (any failure) the fallback table is returned *without being
cached*. -/
def fetchFXRates (oracle : FXOracle) (cache : Cache) (date : String)
    (currencies : List String) : FetchResult :=
  let key := cacheKey date currencies
  match List.lookup key cache with
  | some rates => ⟨rates, cache, 0⟩
  | none =>
    match parseDateMs date with
    | none => ⟨fallbackRates currencies, cache, 0⟩
    | some _ =>
      match oracle date currencies with
      | none => ⟨fallbackRates currencies, cache, 1⟩
      | some rs =>
        let usdRates := invertRates rs
        ⟨usdRates, (key, usdRates) :: cache, 1⟩

/-! ### The pipeline (`processInvoiceData`) -/

/-- The normalization block at the top of `processInvoiceData`'s `map`
callback: default substitutions for missing fields. -/
def normalizeRow (row : RawRow) : InvoiceData :=
  { Client := strOr row.Client ""
    Invoice_Amount :=
      match row.Invoice_Amount with
      | some s => jOrZero (parseFloat s)
      | none => 0
    Currency := strOr row.Currency "USD"
    Invoice_Date := strOr row.Invoice_Date ""
    Due_Date := strOr row.Due_Date ""
    Payment_Date :=
      match row.Payment_Date with
      | some s => if s = "" then none else some s
      | none => none
    Payment_Amount :=
      match row.Payment_Amount with
      | some s => if s = "" then none else some (parseFloat s)
      | none => none }

/-- The default table `fxRateMap.get(invoice.Invoice_Date) || \x7b [invoice.Currency]: 1, USD: 1 \x7d`. -/
def defaultRatesMap (cur : String) : RatesMap :=
  [(cur, 1), ("USD", 1)]

/-- The invoice-date rate table used for an invoice. -/
def invoiceRatesFor (rm : List (String × RatesMap)) (inv : InvoiceData) : RatesMap :=
  (List.lookup inv.Invoice_Date rm).getD (defaultRatesMap inv.Currency)

/-- The payment-date rate table used for an invoice (falls back to the
invoice-date table when `Payment_Date` is falsy). -/
def paymentRatesFor (rm : List (String × RatesMap)) (inv : InvoiceData) : RatesMap :=
  match inv.Payment_Date with
  | some p =>
    if p = "" then invoiceRatesFor rm inv
    else (List.lookup p rm).getD (defaultRatesMap inv.Currency)
  | none => invoiceRatesFor rm inv

/-- Models `calculateFXGainLoss` from `fxUtils.ts`: note both sides are computed from
`invoiceAmount`. -/
def calculateFXGainLoss (invoiceAmount : ℚ) (currency : String)
    (invoiceRates paymentRates : RatesMap) : ℚ :=
  if currency = "USD" then 0
  else
    let invoiceRate := rateOr1 invoiceRates currency
    let paymentRate := rateOr1 paymentRates currency
    let usdAtInvoice := invoiceAmount * invoiceRate
    let usdAtPayment := invoiceAmount * paymentRate
    usdAtPayment - usdAtInvoice

/-- Models `getInvoiceStatus`: a truthy `Payment_Date` always wins; otherwise
`new Date(Due_Date) < today`, where an Invalid Date compares `false`
(JS `NaN < x` is `false`), falls through to `Outstanding`. -/
def getInvoiceStatus (inv : InvoiceData) (today : Int) : Status :=
  if truthyS inv.Payment_Date then Status.Paid
  else
    match parseDateMs inv.Due_Date with
    | some d => if d < today then Status.Overdue else Status.Outstanding
    | none => Status.Outstanding

/-- Models `calculateDaysOutstanding`: `Math.max(0, Math.ceil((today - due) / day))`;
an unparseable due date makes the whole expression `NaN` (`Math.max(0, NaN)`
is `NaN`), modelled as `none`. -/
def calculateDaysOutstanding (dueDate : String) (today : Int) : JInt :=
  match parseDateMs dueDate with
  | none => none
  | some d => some (max 0 (ceilDiv (today - d) 86400000))

/-- The guard `invoice.Payment_Date && invoice.Payment_Amount` (JS truthiness:
a present-but-`0` or present-but-`NaN` payment amount fails the guard). -/
def paymentGuard (inv : InvoiceData) : Bool :=
  truthyS inv.Payment_Date &&
    (match inv.Payment_Amount with
     | some j => jTruthy j
     | none => false)

/-- The numeric value of a present payment amount (only read under
`paymentGuard`, which rules out `NaN`). -/
def paymentValue (inv : InvoiceData) : ℚ :=
  match inv.Payment_Amount with
  | some (some q) => q
  | _ => 0

/-- The body of `processInvoiceData`'s `rawData.map` callback: normalize one
row and fill in every derived field from the prefetched rate map. -/
def processRow (rm : List (String × RatesMap)) (today : Int) (row : RawRow) :
    InvoiceData :=
  let inv := normalizeRow row
  let invoiceRates := invoiceRatesFor rm inv
  let paymentRates := paymentRatesFor rm inv
  { inv with
    usd_amount_at_invoice := some (inv.Invoice_Amount * rateOr1 invoiceRates inv.Currency)
    usd_amount_at_payment :=
      if paymentGuard inv then
        some (paymentValue inv * rateOr1 paymentRates inv.Currency)
      else none
    fx_gain_loss :=
      if paymentGuard inv then
        some (calculateFXGainLoss inv.Invoice_Amount inv.Currency invoiceRates paymentRates)
      else none
    status := some (getInvoiceStatus inv today)
    days_outstanding := some (calculateDaysOutstanding inv.Due_Date today) }

/-- The prefetch stage: one `fetchFXRates` per distinct truthy date (the
`Promise.all` over `dates.map`), threading the cache; yields the
`fxRateMap : date → rates` association list and the final cache.  (All cache
keys are distinct per date, so sequential threading is observationally the
same as the concurrent JS execution.) -/
def buildRateMap (oracle : FXOracle) (cache : Cache) (dates : List String)
    (currencies : List String) : List (String × RatesMap) × Cache :=
  match dates with
  | [] => ([], cache)
  | d :: ds =>
    let r := fetchFXRates oracle cache d currencies
    let rest := buildRateMap oracle r.cache ds currencies
    ((d, r.rates) :: rest.1, rest.2)

/-- Models `processInvoiceData(rawData)`: de-duplicate truthy currencies and dates,
prefetch rates, then map every raw row to a fully-derived record (one output
per input row, in order).  The current instant and the module-level cache are
threaded explicitly. -/
def processInvoiceData (oracle : FXOracle) (today : Int) (cache : Cache)
    (rawData : List RawRow) : List InvoiceData × Cache :=
  let currencies := dedupFirst (truthyVals (rawData.map (fun r => r.Currency)))
  let dates := dedupFirst
    (truthyVals (rawData.map (fun r => r.Invoice_Date)) ++
     truthyVals (rawData.map (fun r => r.Payment_Date)))
  let bm := buildRateMap oracle cache dates currencies
  (rawData.map (processRow bm.1 today), bm.2)

/-! ### Well-formedness predicates and concrete fixtures -/

/-- A rate table that maps `USD` to `1` — true of every table the code ever
builds (`usdRates['USD'] = 1`, the fallback table, and the per-row default). -/
def RatesWF (m : RatesMap) : Prop :=
  List.lookup "USD" m = some 1

/-- Every table stored in a date→rates map is `RatesWF`. -/
def RateMapWF (rm : List (String × RatesMap)) : Prop :=
  ∀ d m, List.lookup d rm = some m → RatesWF m

/-- Every table stored in the cache is `RatesWF` — an invariant of the
module-level cache, which only ever receives success-path tables. -/
def CacheWF (c : Cache) : Prop :=
  ∀ k m, List.lookup k c = some m → RatesWF m

/-- A rate table all of whose entries are the neutral rate `1`. -/
def AllOnes (m : RatesMap) : Prop :=
  ∀ p ∈ m, p.2 = 1

/-- Every table stored in a date→rates map is all-ones. -/
def RateMapAllOnes (rm : List (String × RatesMap)) : Prop :=
  ∀ d m, List.lookup d rm = some m → AllOnes m

/-- An always-failing rate source (network down / malformed responses). -/
def failOracle : FXOracle := fun _ _ => none

/-- A rate source that always answers with an EUR rate of `25/27`
(EUR→USD `1.08` after inversion). -/
def okOracle : FXOracle := fun _ _ => some [("EUR", 25 / 27)]

/-- Instant 2024-02-15T12:00:00Z in epoch milliseconds. -/
def t0 : Int := 1707998400000

/-- Instant 2024-02-15T00:00:00Z in epoch milliseconds. -/
def d0215 : Int := 1707955200000

/-- Instant 2024-02-16T00:00:00Z in epoch milliseconds. -/
def d0216 : Int := 1708041600000

/-- A throwaway record used only as a `getD` default. -/
def defaultInvoice : InvoiceData :=
  { Client := "", Invoice_Amount := 0, Currency := "", Invoice_Date := "", Due_Date := "" }

/-- A EUR invoice paid with a payment amount (500) different from the invoice
amount (1000). -/
def rowPaidHalf : RawRow :=
  { Client := some "Acme", Invoice_Amount := some "1000", Currency := some "EUR",
    Invoice_Date := some "2024-01-15", Due_Date := some "2024-02-15",
    Payment_Date := some "2024-02-10", Payment_Amount := some "500" }

/-- The same invoice paid in full (payment amount = invoice amount). -/
def rowPaidEq : RawRow := { rowPaidHalf with Payment_Amount := some "1000" }

/-- The same invoice with a recorded payment amount of `"0"`. -/
def rowPaidZero : RawRow := { rowPaidHalf with Payment_Amount := some "0" }

/-- A row with no `Currency` cell at all. -/
def rowNoCurrency : RawRow :=
  { Client := some "Acme", Invoice_Amount := some "100",
    Invoice_Date := some "2024-01-15", Due_Date := some "2024-02-15" }

/-- An unpaid EUR invoice (rate-source-unreachable scenario). -/
def rowEUR : RawRow :=
  { Client := some "Acme", Invoice_Amount := some "1000", Currency := some "EUR",
    Invoice_Date := some "2024-01-15", Due_Date := some "2024-02-15" }

/-- A row whose currency is spelled `"eur"` while the fetched table is keyed
by `"EUR"`. -/
def rowLowerEur : RawRow :=
  { Client := some "A", Invoice_Amount := some "100", Currency := some "eur",
    Invoice_Date := some "2024-01-15", Due_Date := some "2024-02-15" }

/-- A date→rates map whose only table is keyed by upper-case `"EUR"`. -/
def rmCase : List (String × RatesMap) := [("2024-01-15", [("EUR", 27 / 25)])]

/-- The record `processInvoiceData` produces for `rowPaidHalf` (failing source,
fresh cache, `today = t0`). -/
def recPaidHalf : InvoiceData :=
  ((processInvoiceData failOracle t0 [] [rowPaidHalf]).1).getD 0 defaultInvoice

/-- The record produced for `rowPaidEq`. -/
def recPaidEq : InvoiceData :=
  ((processInvoiceData failOracle t0 [] [rowPaidEq]).1).getD 0 defaultInvoice

/-- The record produced for `rowPaidZero`. -/
def recPaidZero : InvoiceData :=
  ((processInvoiceData failOracle t0 [] [rowPaidZero]).1).getD 0 defaultInvoice

/-- The record produced for `rowNoCurrency`. -/
def recNoCurrency : InvoiceData :=
  ((processInvoiceData failOracle t0 [] [rowNoCurrency]).1).getD 0 defaultInvoice

/-- The record produced for `rowEUR` with the rate source unreachable. -/
def recEUR : InvoiceData :=
  ((processInvoiceData failOracle t0 [] [rowEUR]).1).getD 0 defaultInvoice

/-- A normalized invoice with no payment date and an unparseable due date. -/
def invUnparseable : InvoiceData :=
  { Client := "", Invoice_Amount := 0, Currency := "USD", Invoice_Date := "",
    Due_Date := "not-a-date" }

/-! ### Helper lemmas -/

theorem cacheWF_nil : CacheWF [] := by
  intro k m h
  simp [List.lookup] at h

theorem ratesWF_fallback (currencies : List String) :
    RatesWF (fallbackRates currencies) := by
  simp [RatesWF, fallbackRates, List.lookup]

theorem ratesWF_invert (rs : RatesMap) : RatesWF (invertRates rs) := by
  simp [RatesWF, invertRates, List.lookup]

theorem ratesWF_default (cur : String) : RatesWF (defaultRatesMap cur) := by
  simp only [RatesWF, defaultRatesMap, List.lookup]
  split <;> rfl

theorem rateOr1_USD {m : RatesMap} (h : RatesWF m) : rateOr1 m "USD" = 1 := by
  simp [rateOr1, RatesWF] at *
  simp [h]

theorem fetch_ratesWF (oracle : FXOracle) (cache : Cache) (date : String)
    (currencies : List String) (hc : CacheWF cache) :
    RatesWF (fetchFXRates oracle cache date currencies).rates := by
  simp only [fetchFXRates]
  cases hl : List.lookup (cacheKey date currencies) cache with
  | some m => simpa only [hl] using hc _ _ hl
  | none =>
    simp only [hl]
    cases hp : parseDateMs date with
    | none => simpa only [hp] using ratesWF_fallback currencies
    | some x =>
      simp only [hp]
      cases ho : oracle date currencies with
      | none => simpa only [ho] using ratesWF_fallback currencies
      | some rs => simpa only [ho] using ratesWF_invert rs

theorem fetch_cacheWF (oracle : FXOracle) (cache : Cache) (date : String)
    (currencies : List String) (hc : CacheWF cache) :
    CacheWF (fetchFXRates oracle cache date currencies).cache := by
  simp only [fetchFXRates]
  cases hl : List.lookup (cacheKey date currencies) cache with
  | some m => simpa only [hl] using hc
  | none =>
    simp only [hl]
    cases hp : parseDateMs date with
    | none => simpa only [hp] using hc
    | some x =>
      simp only [hp]
      cases ho : oracle date currencies with
      | none => simpa only [ho] using hc
      | some rs =>
        simp only [ho]
        intro k m h
        simp only [List.lookup] at h
        cases hk : (k == cacheKey date currencies) with
        | true =>
          rw [hk] at h
          exact (Option.some.inj h) ▸ ratesWF_invert rs
        | false =>
          rw [hk] at h
          exact hc _ _ h

theorem build_mapWF (oracle : FXOracle) (dates currencies : List String)
    (cache : Cache) (hc : CacheWF cache) :
    RateMapWF (buildRateMap oracle cache dates currencies).1 ∧
      CacheWF (buildRateMap oracle cache dates currencies).2 := by
  induction dates generalizing cache with
  | nil =>
    refine ⟨?_, hc⟩
    intro d m h
    simp [buildRateMap, List.lookup] at h
  | cons d ds ih =>
    have h1 := fetch_ratesWF oracle cache d currencies hc
    have h2 := fetch_cacheWF oracle cache d currencies hc
    have hrest := ih _ h2
    refine ⟨?_, hrest.2⟩
    intro d' m h
    simp only [buildRateMap, List.lookup] at h
    cases hk : (d' == d) with
    | true =>
      rw [hk] at h
      exact (Option.some.inj h) ▸ h1
    | false =>
      rw [hk] at h
      exact hrest.1 _ _ h

theorem ratesWF_invoiceRatesFor {rm : List (String × RatesMap)}
    (h : RateMapWF rm) (inv : InvoiceData) :
    RatesWF (invoiceRatesFor rm inv) := by
  unfold invoiceRatesFor
  cases hl : List.lookup inv.Invoice_Date rm with
  | some m => exact h _ _ hl
  | none => exact ratesWF_default inv.Currency

theorem ratesWF_paymentRatesFor {rm : List (String × RatesMap)}
    (h : RateMapWF rm) (inv : InvoiceData) :
    RatesWF (paymentRatesFor rm inv) := by
  unfold paymentRatesFor
  cases inv.Payment_Date with
  | none => exact ratesWF_invoiceRatesFor h inv
  | some p =>
    by_cases hp : p = ""
    · simp only [hp, if_pos rfl]
      exact ratesWF_invoiceRatesFor h inv
    · simp only [if_neg hp]
      cases hl : List.lookup p rm with
      | some m => exact h _ _ hl
      | none => exact ratesWF_default inv.Currency

theorem rateOr1_allOnes {m : RatesMap} (h : AllOnes m) (c : String) :
    rateOr1 m c = 1 := by
  induction m with
  | nil => rfl
  | cons p ps ih =>
    have hp : p.2 = 1 := h p (List.mem_cons_self p ps)
    have hps : AllOnes ps := fun q hq => h q (List.mem_cons_of_mem p hq)
    simp only [rateOr1, List.lookup]
    cases hk : (c == p.1) with
    | true => simp [hk, hp]
    | false => simpa [rateOr1, hk] using ih hps

theorem allOnes_fallback (currencies : List String) :
    AllOnes (fallbackRates currencies) := by
  intro p hp
  simp only [fallbackRates, List.mem_cons, List.mem_map] at hp
  rcases hp with h | ⟨c, _, rfl⟩
  · rw [h]
  · rfl

theorem allOnes_default (cur : String) : AllOnes (defaultRatesMap cur) := by
  intro p hp
  simp only [defaultRatesMap, List.mem_cons] at hp
  rcases hp with h | h | h
  · rw [h]
  · rw [h]
  · cases h

theorem rateOr1_default_self (cur : String) :
    rateOr1 (defaultRatesMap cur) cur = 1 :=
  rateOr1_allOnes (allOnes_default cur) cur

/-- Projection lemmas for `processRow` (all definitional). -/
theorem processRow_Currency (rm : List (String × RatesMap)) (today : Int)
    (row : RawRow) : (processRow rm today row).Currency = (normalizeRow row).Currency := rfl

theorem processRow_Invoice_Amount (rm : List (String × RatesMap)) (today : Int)
    (row : RawRow) :
    (processRow rm today row).Invoice_Amount = (normalizeRow row).Invoice_Amount := rfl

theorem processRow_Payment_Date (rm : List (String × RatesMap)) (today : Int)
    (row : RawRow) :
    (processRow rm today row).Payment_Date = (normalizeRow row).Payment_Date := rfl

theorem processRow_Payment_Amount (rm : List (String × RatesMap)) (today : Int)
    (row : RawRow) :
    (processRow rm today row).Payment_Amount = (normalizeRow row).Payment_Amount := rfl

theorem processRow_usd_invoice (rm : List (String × RatesMap)) (today : Int)
    (row : RawRow) :
    (processRow rm today row).usd_amount_at_invoice =
      some ((normalizeRow row).Invoice_Amount *
        rateOr1 (invoiceRatesFor rm (normalizeRow row)) (normalizeRow row).Currency) := rfl

theorem processRow_usd_payment (rm : List (String × RatesMap)) (today : Int)
    (row : RawRow) :
    (processRow rm today row).usd_amount_at_payment =
      (if paymentGuard (normalizeRow row) then
        some (paymentValue (normalizeRow row) *
          rateOr1 (paymentRatesFor rm (normalizeRow row)) (normalizeRow row).Currency)
      else none) := rfl

theorem processRow_fx (rm : List (String × RatesMap)) (today : Int)
    (row : RawRow) :
    (processRow rm today row).fx_gain_loss =
      (if paymentGuard (normalizeRow row) then
        some (calculateFXGainLoss (normalizeRow row).Invoice_Amount
          (normalizeRow row).Currency (invoiceRatesFor rm (normalizeRow row))
          (paymentRatesFor rm (normalizeRow row)))
      else none) := rfl

theorem processRow_status (rm : List (String × RatesMap)) (today : Int)
    (row : RawRow) :
    (processRow rm today row).status = some (getInvoiceStatus (normalizeRow row) today) := rfl

theorem processInvoiceData_fst (oracle : FXOracle) (today : Int) (cache : Cache)
    (rawData : List RawRow) :
    (processInvoiceData oracle today cache rawData).1 =
      rawData.map (processRow
        (buildRateMap oracle cache
          (dedupFirst
            (truthyVals (rawData.map (fun r => r.Invoice_Date)) ++
             truthyVals (rawData.map (fun r => r.Payment_Date))))
          (dedupFirst (truthyVals (rawData.map (fun r => r.Currency))))).1
        today) := rfl

/-- A normalized `Payment_Date` is truthy exactly when it is present. -/
theorem truthyS_normalized (row : RawRow) :
    truthyS (normalizeRow row).Payment_Date = (normalizeRow row).Payment_Date.isSome := by
  cases h : row.Payment_Date with
  | none => simp [normalizeRow, truthyS, h]
  | some s =>
    by_cases hs : s = "" <;> simp [normalizeRow, truthyS, h, hs]

/-- Per-row core of the reporting-currency property. -/
theorem processRow_usd_aux {rm : List (String × RatesMap)} (hwf : RateMapWF rm)
    (today : Int) (row : RawRow)
    (hcur : (processRow rm today row).Currency = "USD") :
    (processRow rm today row).usd_amount_at_invoice =
        some (processRow rm today row).Invoice_Amount ∧
      ∀ g, (processRow rm today row).fx_gain_loss = some g → g = 0 := by
  have hcur' : (normalizeRow row).Currency = "USD" := hcur
  constructor
  · rw [processRow_usd_invoice, processRow_Invoice_Amount, hcur',
      rateOr1_USD (ratesWF_invoiceRatesFor hwf _), mul_one]
  · intro g hg
    rw [processRow_fx] at hg
    by_cases hguard : paymentGuard (normalizeRow row)
    · rw [if_pos hguard] at hg
      have hgv : g = calculateFXGainLoss (normalizeRow row).Invoice_Amount
          (normalizeRow row).Currency (invoiceRatesFor rm (normalizeRow row))
          (paymentRatesFor rm (normalizeRow row)) := (Option.some.inj hg).symm
      rw [hgv]
      simp [calculateFXGainLoss, hcur']
    · rw [if_neg hguard] at hg
      cases hg

/-! ### Claim theorems -/

/-- C3 (confirmed): for every record produced by `processInvoiceData` whose
currency is the reporting currency `USD`, `usd_amount_at_invoice` equals
`Invoice_Amount`, and `fx_gain_loss` is `0` whenever it is computed.  (The
starting cache must satisfy the invariant every reachable cache has: stored
tables map `USD` to `1`.) -/
theorem usd_invoice_is_identity (oracle : FXOracle) (today : Int) (cache : Cache)
    (rawData : List RawRow) (hc : CacheWF cache) :
    ∀ rec ∈ (processInvoiceData oracle today cache rawData).1,
      rec.Currency = "USD" →
        rec.usd_amount_at_invoice = some rec.Invoice_Amount ∧
          ∀ g, rec.fx_gain_loss = some g → g = 0 := by
  intro rec hrec hcur
  rw [processInvoiceData_fst, List.mem_map] at hrec
  obtain ⟨row, hrow, rfl⟩ := hrec
  exact processRow_usd_aux (build_mapWF oracle _ _ cache hc).1 today row hcur

/-- Witness for C3: a row with no `Currency` cell defaults to `USD` and gets
`usd_amount_at_invoice = Invoice_Amount`. -/
theorem usd_invoice_is_identity_witness :
    recNoCurrency ∈ (processInvoiceData failOracle t0 [] [rowNoCurrency]).1 ∧
      recNoCurrency.Currency = "USD" ∧
      recNoCurrency.usd_amount_at_invoice = some recNoCurrency.Invoice_Amount :=
  ⟨by decide, by decide,
    (usd_invoice_is_identity failOracle t0 [] [rowNoCurrency] cacheWF_nil
      recNoCurrency (by decide) (by decide)).1⟩

/-- C4 (confirmed): a record produced by `processInvoiceData` has
`status = Paid` exactly when its normalized `Payment_Date` is present,
regardless of the due date. -/
theorem status_paid_iff_payment_date (oracle : FXOracle) (today : Int)
    (cache : Cache) (rawData : List RawRow) :
    ∀ rec ∈ (processInvoiceData oracle today cache rawData).1,
      (rec.status = some Status.Paid ↔ rec.Payment_Date.isSome = true) := by
  intro rec hrec
  rw [processInvoiceData_fst, List.mem_map] at hrec
  obtain ⟨row, hrow, rfl⟩ := hrec
  rw [processRow_status, processRow_Payment_Date]
  have ht := truthyS_normalized row
  cases hps : (normalizeRow row).Payment_Date.isSome with
  | true => simp [getInvoiceStatus, ht, hps]
  | false =>
    rw [hps] at ht
    simp only [getInvoiceStatus, ht, Bool.false_eq_true, if_false]
    cases hd : parseDateMs (normalizeRow row).Due_Date with
    | none => simp
    | some d =>
      by_cases hlt : d < today <;> simp [hlt]

/-- Witness for C4: a paid-late row (payment date present, due date in the
past) is still `Paid`. -/
theorem status_paid_iff_payment_date_witness :
    recPaidZero ∈ (processInvoiceData failOracle t0 [] [rowPaidZero]).1 ∧
      (recPaidZero.status = some Status.Paid ↔ recPaidZero.Payment_Date.isSome = true) :=
  ⟨by decide,
    status_paid_iff_payment_date failOracle t0 [] [rowPaidZero] recPaidZero (by decide)⟩

/-- C9 (confirmed): with no payment date and a due date that does not parse,
the status classifier returns `Outstanding`, never `Overdue` (JS compares
`Invalid Date < today` as `false`). -/
theorem unparseable_due_is_outstanding (inv : InvoiceData) (today : Int)
    (hp : inv.Payment_Date = none) (hd : parseDateMs inv.Due_Date = none) :
    getInvoiceStatus inv today = Status.Outstanding := by
  simp [getInvoiceStatus, hp, truthyS, hd]

/-- Witness for C9. -/
theorem unparseable_due_is_outstanding_witness :
    invUnparseable.Payment_Date = none ∧
      parseDateMs invUnparseable.Due_Date = none ∧
      getInvoiceStatus invUnparseable 0 = Status.Outstanding :=
  ⟨rfl, by decide, unparseable_due_is_outstanding invUnparseable 0 rfl (by decide)⟩

/-- C10 (confirmed): when the invoice's currency has no entry in the rate
table resolved for its invoice date (including the case where no table was
fetched for that date at all), the pipeline silently uses the neutral rate
`1`, so `usd_amount_at_invoice = Invoice_Amount` and no failure occurs. -/
theorem missing_rate_entry_uses_neutral_rate (rm : List (String × RatesMap))
    (today : Int) (row : RawRow)
    (h : Option.all (fun m => (List.lookup (normalizeRow row).Currency m).isNone)
          (List.lookup (normalizeRow row).Invoice_Date rm) = true) :
    (processRow rm today row).usd_amount_at_invoice =
      some (processRow rm today row).Invoice_Amount := by
  rw [processRow_usd_invoice, processRow_Invoice_Amount]
  have hone : rateOr1 (invoiceRatesFor rm (normalizeRow row))
      (normalizeRow row).Currency = 1 := by
    unfold invoiceRatesFor
    cases hl : List.lookup (normalizeRow row).Invoice_Date rm with
    | none =>
      rw [Option.getD_none]
      exact rateOr1_default_self _
    | some m =>
      rw [Option.getD_some]
      rw [hl] at h
      simp only [Option.all, Option.isNone_iff_eq_none] at h
      simp [rateOr1, h]
  rw [hone, mul_one]

/-- Witness for C10: currency `"eur"` misses the `"EUR"`-keyed table. -/
theorem missing_rate_entry_uses_neutral_rate_witness :
    Option.all (fun m => (List.lookup (normalizeRow rowLowerEur).Currency m).isNone)
        (List.lookup (normalizeRow rowLowerEur).Invoice_Date rmCase) = true ∧
      (processRow rmCase t0 rowLowerEur).usd_amount_at_invoice =
        some (processRow rmCase t0 rowLowerEur).Invoice_Amount :=
  ⟨by decide, missing_rate_entry_uses_neutral_rate rmCase t0 rowLowerEur (by decide)⟩

/-- With a dead rate source and a fresh cache, one `fetchFXRates` call returns
the fallback table and leaves the cache empty. -/
theorem fetch_fail_rates (d : String) (currencies : List String) :
    (fetchFXRates failOracle [] d currencies).rates = fallbackRates currencies ∧
      (fetchFXRates failOracle [] d currencies).cache = [] := by
  simp only [fetchFXRates, List.lookup]
  cases hp : parseDateMs d <;> simp [failOracle, hp]

/-- With a dead rate source and a fresh cache, every table in the prefetched
rate map is the all-ones fallback, and the cache stays empty. -/
theorem build_fail_allOnes (dates currencies : List String) :
    RateMapAllOnes (buildRateMap failOracle [] dates currencies).1 ∧
      (buildRateMap failOracle [] dates currencies).2 = [] := by
  induction dates with
  | nil =>
    constructor
    · intro d m h
      simp [buildRateMap, List.lookup] at h
    · rfl
  | cons d ds ih =>
    have hf := fetch_fail_rates d currencies
    constructor
    · intro d' m h
      simp only [buildRateMap, List.lookup, hf.2] at h
      cases hk : (d' == d) with
      | true =>
        rw [hk] at h
        rw [← Option.some.inj h, hf.1]
        exact allOnes_fallback currencies
      | false =>
        rw [hk] at h
        exact (ih.1) _ _ h
    · simp only [buildRateMap, hf.2]
      exact ih.2

/-- Per-row: if every table in the rate map is all-ones, the invoice-side USD
amount is the raw amount. -/
theorem processRow_allOnes_aux {rm : List (String × RatesMap)}
    (hall : RateMapAllOnes rm) (today : Int) (row : RawRow) :
    (processRow rm today row).usd_amount_at_invoice =
      some (processRow rm today row).Invoice_Amount := by
  rw [processRow_usd_invoice, processRow_Invoice_Amount]
  have hone : rateOr1 (invoiceRatesFor rm (normalizeRow row))
      (normalizeRow row).Currency = 1 := by
    unfold invoiceRatesFor
    cases hl : List.lookup (normalizeRow row).Invoice_Date rm with
    | none =>
      rw [Option.getD_none]
      exact rateOr1_default_self _
    | some m =>
      rw [Option.getD_some]
      exact rateOr1_allOnes (hall _ _ hl) _
  rw [hone, mul_one]

/-- C6 (confirmed): if the external lookup fails (here: cache miss plus a
failing response, which also covers network errors, non-OK statuses and
malformed payloads, all of which land in the same `catch`), the resolver
returns the neutral rate `1` for every currency instead of propagating the
failure; and a batch processed with the rate source fully unreachable still
yields one record per row, each with `usd_amount_at_invoice = Invoice_Amount`
(fallback rate 1). -/
theorem fallback_rate_on_failure (oracle : FXOracle) (cache : Cache)
    (date : String) (currencies : List String) (today : Int)
    (rawData : List RawRow)
    (h1 : List.lookup (cacheKey date currencies) cache = none)
    (h2 : oracle date currencies = none) :
    (∀ c, rateOr1 (fetchFXRates oracle cache date currencies).rates c = 1) ∧
      (processInvoiceData failOracle today [] rawData).1.length = rawData.length ∧
      ∀ rec ∈ (processInvoiceData failOracle today [] rawData).1,
        rec.usd_amount_at_invoice = some rec.Invoice_Amount := by
  refine ⟨?_, ?_, ?_⟩
  · intro c
    simp only [fetchFXRates, h1]
    cases hp : parseDateMs date with
    | none => simpa only [hp] using rateOr1_allOnes (allOnes_fallback currencies) c
    | some x =>
      simp only [hp, h2]
      exact rateOr1_allOnes (allOnes_fallback currencies) c
  · rw [processInvoiceData_fst]
    exact List.length_map _ _
  · intro rec hrec
    rw [processInvoiceData_fst, List.mem_map] at hrec
    obtain ⟨row, hrow, rfl⟩ := hrec
    exact processRow_allOnes_aux (build_fail_allOnes _ _).1 today row

/-- Witness for C6: the spec's unreachable-source scenario, on an EUR invoice. -/
theorem fallback_rate_on_failure_witness :
    List.lookup (cacheKey "2024-01-15" ["EUR"]) ([] : Cache) = none ∧
      failOracle "2024-01-15" ["EUR"] = none ∧
      rateOr1 (fetchFXRates failOracle [] "2024-01-15" ["EUR"]).rates "EUR" = 1 ∧
      (processInvoiceData failOracle t0 [] [rowEUR]).1.length = 1 ∧
      recEUR.usd_amount_at_invoice = some recEUR.Invoice_Amount :=
  ⟨rfl, rfl,
    (fallback_rate_on_failure failOracle [] "2024-01-15" ["EUR"] t0 [rowEUR]
      rfl rfl).1 "EUR",
    (fallback_rate_on_failure failOracle [] "2024-01-15" ["EUR"] t0 [rowEUR]
      rfl rfl).2.1,
    (fallback_rate_on_failure failOracle [] "2024-01-15" ["EUR"] t0 [rowEUR]
      rfl rfl).2.2 recEUR (by decide)⟩

/-- Counterexample for C7: a row with no currency cell is not rejected — no
`InvalidInput` error exists anywhere in the code.  The pipeline substitutes
the default `USD`, converts at rate 1, and returns the record. -/
theorem empty_currency_no_error_cex :
    recNoCurrency.Currency = "USD" ∧
      recNoCurrency.usd_amount_at_invoice = some 100 ∧
      (processInvoiceData failOracle t0 [] [rowNoCurrency]).1.length = 1 := by
  decide

/-- C7 (corrected): an empty/undefined currency never reaches rate
resolution: normalization substitutes the reporting currency `USD` (and blank
currencies are filtered from the fetch set); no error is raised and every row
of the batch still produces a record. -/
theorem empty_currency_defaults_to_usd (oracle : FXOracle) (today : Int)
    (cache : Cache) (rawData : List RawRow) :
    (processInvoiceData oracle today cache rawData).1.length = rawData.length ∧
      ∀ row : RawRow, truthyS row.Currency = false →
        (normalizeRow row).Currency = "USD" := by
  constructor
  · rw [processInvoiceData_fst]
    exact List.length_map _ _
  · intro row h
    cases hr : row.Currency with
    | none => simp [normalizeRow, strOr, hr]
    | some s =>
      rw [hr] at h
      simp only [truthyS, ne_eq, decide_not, Bool.not_eq_false', decide_eq_true_eq] at h
      simp [normalizeRow, strOr, hr, h]

/-- Witness for C7 (amended). -/
theorem empty_currency_defaults_to_usd_witness :
    truthyS rowNoCurrency.Currency = false ∧
      (normalizeRow rowNoCurrency).Currency = "USD" ∧
      (processInvoiceData failOracle t0 [] [rowNoCurrency]).1.length = 1 :=
  ⟨rfl,
    (empty_currency_defaults_to_usd failOracle t0 [] [rowNoCurrency]).2
      rowNoCurrency rfl,
    (empty_currency_defaults_to_usd failOracle t0 [] [rowNoCurrency]).1⟩

/-- Counterexample for C8: a failed lookup is not cached, so resolving the
same `(date, currencies)` pair twice while the source is down issues two
external lookups — not at most one. -/
theorem failed_fetch_not_cached_cex :
    (fetchFXRates failOracle [] "2024-01-15" ["EUR"]).lookups = 1 ∧
      (fetchFXRates failOracle [] "2024-01-15" ["EUR"]).cache = [] ∧
      (fetchFXRates failOracle
        (fetchFXRates failOracle [] "2024-01-15" ["EUR"]).cache
        "2024-01-15" ["EUR"]).lookups = 1 ∧
      ¬((fetchFXRates failOracle [] "2024-01-15" ["EUR"]).lookups +
          (fetchFXRates failOracle
            (fetchFXRates failOracle [] "2024-01-15" ["EUR"]).cache
            "2024-01-15" ["EUR"]).lookups ≤ 1) := by
  decide

/-- C8 (corrected): when the first resolution of a `(date, currencies)`
request hits the cache or succeeds, a second sequential resolution returns
the same table with no external lookup (at most one lookup in total).
(A *failed* first resolution is not cached — see the counterexample.) -/
theorem second_resolution_cached (oracle : FXOracle) (cache : Cache)
    (date : String) (currencies : List String)
    (h : (List.lookup (cacheKey date currencies) cache).isSome = true ∨
      ((parseDateMs date).isSome = true ∧ (oracle date currencies).isSome = true)) :
    (fetchFXRates oracle (fetchFXRates oracle cache date currencies).cache
        date currencies).rates = (fetchFXRates oracle cache date currencies).rates ∧
      (fetchFXRates oracle (fetchFXRates oracle cache date currencies).cache
        date currencies).lookups = 0 ∧
      (fetchFXRates oracle cache date currencies).lookups ≤ 1 := by
  cases hl : List.lookup (cacheKey date currencies) cache with
  | some m =>
    simp only [fetchFXRates, hl]
    exact ⟨trivial, trivial, by omega⟩
  | none =>
    rcases h with h | ⟨hp, ho⟩
    · rw [hl] at h
      simp at h
    · obtain ⟨x, hx⟩ := Option.isSome_iff_exists.1 hp
      obtain ⟨rs, hrs⟩ := Option.isSome_iff_exists.1 ho
      simp only [fetchFXRates, hl, hx, hrs, List.lookup, beq_self_eq_true]
      exact ⟨trivial, trivial, by omega⟩

/-- Witness for C8 (amended): a successful first fetch populates the cache
and the second resolution is served from it. -/
theorem second_resolution_cached_witness :
    ((parseDateMs "2024-01-15").isSome = true ∧
        (okOracle "2024-01-15" ["EUR"]).isSome = true) ∧
      (fetchFXRates okOracle (fetchFXRates okOracle [] "2024-01-15" ["EUR"]).cache
          "2024-01-15" ["EUR"]).rates =
        (fetchFXRates okOracle [] "2024-01-15" ["EUR"]).rates ∧
      (fetchFXRates okOracle (fetchFXRates okOracle [] "2024-01-15" ["EUR"]).cache
          "2024-01-15" ["EUR"]).lookups = 0 ∧
      (fetchFXRates okOracle [] "2024-01-15" ["EUR"]).lookups ≤ 1 :=
  ⟨⟨by decide, rfl⟩,
    second_resolution_cached okOracle [] "2024-01-15" ["EUR"]
      (Or.inr ⟨by decide, rfl⟩)⟩

/-- Counterexample for C1: `calculateFXGainLoss` computes both sides from the
*invoice* amount, so on an invoice of 1000 paid with 500 (all rates 1) the
record has `usd_amount_at_payment = 500`, `usd_amount_at_invoice = 1000` but
`fx_gain_loss = 0 ≠ 500 − 1000`. -/
theorem fx_gain_ignores_payment_amount_cex :
    recPaidHalf.usd_amount_at_payment = some 500 ∧
      recPaidHalf.usd_amount_at_invoice = some 1000 ∧
      recPaidHalf.fx_gain_loss = some 0 ∧
      ¬((0 : ℚ) = 500 - 1000) := by
  decide

/-- Per-row core of the amended C1. -/
theorem processRow_fx_diff_aux {rm : List (String × RatesMap)}
    (hwf : RateMapWF rm) (today : Int) (row : RawRow)
    (hpa : (processRow rm today row).Payment_Amount =
      some (some (processRow rm today row).Invoice_Amount)) :
    ∀ up ui g, (processRow rm today row).usd_amount_at_payment = some up →
      (processRow rm today row).usd_amount_at_invoice = some ui →
      (processRow rm today row).fx_gain_loss = some g →
      g = up - ui := by
  intro up ui g hup hui hg
  rw [processRow_Payment_Amount, processRow_Invoice_Amount] at hpa
  rw [processRow_usd_payment] at hup
  rw [processRow_usd_invoice] at hui
  rw [processRow_fx] at hg
  by_cases hguard : paymentGuard (normalizeRow row)
  · rw [if_pos hguard] at hup hg
    have hpv : paymentValue (normalizeRow row) = (normalizeRow row).Invoice_Amount := by
      simp [paymentValue, hpa]
    have hup' : up = (normalizeRow row).Invoice_Amount *
        rateOr1 (paymentRatesFor rm (normalizeRow row)) (normalizeRow row).Currency := by
      rw [← Option.some.inj hup, hpv]
    have hui' : ui = (normalizeRow row).Invoice_Amount *
        rateOr1 (invoiceRatesFor rm (normalizeRow row)) (normalizeRow row).Currency :=
      (Option.some.inj hui).symm
    have hg' : g = calculateFXGainLoss (normalizeRow row).Invoice_Amount
        (normalizeRow row).Currency (invoiceRatesFor rm (normalizeRow row))
        (paymentRatesFor rm (normalizeRow row)) := (Option.some.inj hg).symm
    rw [hup', hui', hg', calculateFXGainLoss]
    by_cases hcur : (normalizeRow row).Currency = "USD"
    · rw [if_pos hcur, hcur, rateOr1_USD (ratesWF_paymentRatesFor hwf _),
        rateOr1_USD (ratesWF_invoiceRatesFor hwf _)]
      ring
    · rw [if_neg hcur]
  · rw [if_neg hguard] at hg
    cases hg

/-- C1 (corrected): `fx_gain_loss = usd_amount_at_payment −
usd_amount_at_invoice` holds exactly in the special case where the recorded
payment amount equals the invoice amount; in general the code computes the
gain from the invoice amount on both sides, ignoring `payment_amount` (see
the counterexample). -/
theorem fx_gain_matches_diff_when_paid_in_full (oracle : FXOracle)
    (today : Int) (cache : Cache) (rawData : List RawRow) (hc : CacheWF cache) :
    ∀ rec ∈ (processInvoiceData oracle today cache rawData).1,
      rec.Payment_Amount = some (some rec.Invoice_Amount) →
      ∀ up ui g, rec.usd_amount_at_payment = some up →
        rec.usd_amount_at_invoice = some ui →
        rec.fx_gain_loss = some g →
        g = up - ui := by
  intro rec hrec hpa up ui g hup hui hg
  rw [processInvoiceData_fst, List.mem_map] at hrec
  obtain ⟨row, hrow, rfl⟩ := hrec
  exact processRow_fx_diff_aux (build_mapWF oracle _ _ cache hc).1 today row hpa
    up ui g hup hui hg

/-- Witness for C1 (amended): invoice paid in full. -/
theorem fx_gain_matches_diff_when_paid_in_full_witness :
    recPaidEq ∈ (processInvoiceData failOracle t0 [] [rowPaidEq]).1 ∧
      recPaidEq.Payment_Amount = some (some recPaidEq.Invoice_Amount) ∧
      (0 : ℚ) = 1000 - 1000 :=
  ⟨by decide, by decide,
    fx_gain_matches_diff_when_paid_in_full failOracle t0 [] [rowPaidEq]
      cacheWF_nil recPaidEq (by decide) (by decide) 1000 1000 0
      (by decide) (by decide) (by decide)⟩

/-- Counterexample for C2: a payment amount cell of `"0"` parses to a
*present* `payment_amount = 0`, yet the truthiness guard
`Payment_Date && Payment_Amount` fails and `usd_amount_at_payment` is left
unset instead of being `0 × rate = 0`. -/
theorem zero_payment_amount_skips_usd_payment_cex :
    recPaidZero.Payment_Date.isSome = true ∧
      recPaidZero.Payment_Amount = some (some 0) ∧
      recPaidZero.usd_amount_at_payment = none ∧
      recPaidZero.usd_amount_at_payment ≠ some 0 := by
  decide

/-- C2 (corrected): `usd_amount_at_payment` is set to
`payment_amount × (payment-date rate)` only when the payment date is present
*and* the parsed payment amount is nonzero (and not NaN); an amount parsing
to `0` is treated as falsy and skipped. -/
theorem usd_payment_when_nonzero (rm : List (String × RatesMap)) (today : Int)
    (row : RawRow) :
    ∀ q, (processRow rm today row).Payment_Date.isSome = true →
      (processRow rm today row).Payment_Amount = some (some q) →
      q ≠ 0 →
      (processRow rm today row).usd_amount_at_payment =
        some (q * rateOr1 (paymentRatesFor rm (normalizeRow row))
          (normalizeRow row).Currency) := by
  intro q hpd hpa hq
  rw [processRow_Payment_Date] at hpd
  rw [processRow_Payment_Amount] at hpa
  rw [processRow_usd_payment]
  have hguard : paymentGuard (normalizeRow row) = true := by
    simp [paymentGuard, truthyS_normalized, hpd, hpa, jTruthy, hq]
  rw [if_pos hguard]
  congr 1
  simp [paymentValue, hpa]

/-- Witness for C2 (amended): payment of 500 on the half-paid row. -/
theorem usd_payment_when_nonzero_witness :
    (processRow [] t0 rowPaidHalf).Payment_Date.isSome = true ∧
      (processRow [] t0 rowPaidHalf).Payment_Amount = some (some 500) ∧
      (500 : ℚ) ≠ 0 ∧
      (processRow [] t0 rowPaidHalf).usd_amount_at_payment =
        some (500 * rateOr1 (paymentRatesFor [] (normalizeRow rowPaidHalf))
          (normalizeRow rowPaidHalf).Currency) :=
  ⟨by decide, by decide, by decide,
    usd_payment_when_nonzero [] t0 rowPaidHalf 500 (by decide) (by decide)
      (by decide)⟩

/-- The value `ceilDiv a 86400000` is nonpositive exactly when `a` is nonpositive. -/
theorem ceilDiv_day_nonpos_iff (a : Int) : ceilDiv a 86400000 ≤ 0 ↔ a ≤ 0 := by
  unfold ceilDiv
  rw [Int.fdiv_eq_ediv _ (by decide : (0 : Int) ≤ 86400000)]
  constructor
  · intro h
    by_contra ha
    push_neg at ha
    have hneg : (-a) / 86400000 < 0 := Int.ediv_neg' (by omega) (by decide)
    omega
  · intro h
    have hnn : 0 ≤ (-a) / 86400000 := Int.ediv_nonneg (by omega) (by decide)
    omega

/-- Counterexample for C5: a due date equal to the current calendar day (here
2024-02-15, with the clock at noon UTC) reports `days_outstanding = 1`, not
`0`: the due date parses to midnight, the wall clock is past it, and
`Math.ceil` rounds the fraction of a day up. -/
theorem due_today_reports_one_cex :
    parseDateMs "2024-02-15" = some d0215 ∧
      d0215 ≤ t0 ∧ t0 < d0215 + 86400000 ∧
      calculateDaysOutstanding "2024-02-15" t0 = some 1 ∧
      calculateDaysOutstanding "2024-02-15" t0 ≠ some 0 := by
  decide

/-- C5 (corrected): for a *parseable* due date, `days_outstanding` is a
non-negative integer, and it is `0` exactly when the current instant is at or
before the parsed due-date midnight — so `0` for strictly-future due dates,
but `1` for a due date equal to the current day once the clock passes
midnight (see the counterexample); an unparseable due date yields `NaN`
rather than an integer. -/
theorem days_outstanding_nonneg_zero_iff (due : String) (t d : Int)
    (h : parseDateMs due = some d) :
    (calculateDaysOutstanding due t).isSome = true ∧
      Option.all (fun v => decide (0 ≤ v)) (calculateDaysOutstanding due t) = true ∧
      (calculateDaysOutstanding due t = some 0 ↔ t ≤ d) := by
  simp only [calculateDaysOutstanding, h]
  refine ⟨rfl, ?_, ?_⟩
  · simp only [Option.all, decide_eq_true_eq]
    exact le_max_left 0 _
  · constructor
    · intro h0
      have h0' : max 0 (ceilDiv (t - d) 86400000) = 0 := Option.some.inj h0
      have hle : ceilDiv (t - d) 86400000 ≤ 0 := max_eq_left_iff.1 h0'
      have := (ceilDiv_day_nonpos_iff (t - d)).1 hle
      omega
    · intro hle
      have hc : ceilDiv (t - d) 86400000 ≤ 0 :=
        (ceilDiv_day_nonpos_iff (t - d)).2 (by omega)
      rw [max_eq_left hc]

/-- Witness for C5 (amended): a due date strictly in the future reports 0. -/
theorem days_outstanding_nonneg_zero_iff_witness :
    parseDateMs "2024-02-16" = some d0216 ∧
      ((calculateDaysOutstanding "2024-02-16" t0).isSome = true ∧
        Option.all (fun v => decide (0 ≤ v))
          (calculateDaysOutstanding "2024-02-16" t0) = true ∧
        (calculateDaysOutstanding "2024-02-16" t0 = some 0 ↔ t0 ≤ d0216)) :=
  ⟨by decide, days_outstanding_nonneg_zero_iff "2024-02-16" t0 d0216 (by decide)⟩

end FxTracker
